import Mathlib

/-!
Verification development for the runtime memory-leak detection agent
(`src/temp_advanced_backup/advanced_agent.cpp` and `src/monitor/agent.cpp`).

The agent's global state (statistics counters, live-allocation index, the
shared ring buffer, and the process heap as seen through the agent's
in-band headers) is embedded as an explicit state record; each interposer
entry point (`malloc`, `free`, `realloc`, `calloc`) becomes a state
transformer.  Machine integers are naturals reduced modulo `2^w` at
exactly the points where the C code can wrap.  The underlying ("real")
allocator is an oracle parameter `realAlloc : Nat → Option Nat` mapping a
request size to the address it returns (`none` = allocation failure); the
real `free`/`realloc` calls the agent forwards are recorded in ghost
traces so that pass-through behaviour is observable.

Memory is modelled as a split heap: `headers : Nat → Option AllocationMeta`
gives, for each address, the allocation header stored there (if any), and
`mem : Nat → Nat` gives the user-visible bytes.  Every realFreeCalls trace
entry records the forwarded address together with a ghost observation of
the magic word stored at that address at the moment of the call, so that
"magic is cleared before the real free" is visible in the trace.
-/

namespace LeakAgent

/-- `2 ^ 64`, the modulus of `size_t` / pointer arithmetic on the 64-bit
target. -/
def W64 : Nat := 18446744073709551616

/-- `2 ^ 32`, the modulus of 32-bit fields (`next_event_id`). -/
def U32 : Nat := 4294967296

/-- `#define ALLOC_MAGIC 0xDEADBEEF` (advanced_agent.cpp line 92). -/
def ALLOC_MAGIC : Nat := 0xDEADBEEF

/-- `#define LEAK_BUFFER_SIZE 1000` (advanced_agent.cpp line 62). -/
def LEAK_BUFFER_SIZE : Nat := 1000

/-- `#define BUFFER_SIZE 1000` (monitor/agent.cpp line 21). -/
def BUFFER_SIZE : Nat := 1000

/-- `#define MAX_TRACKED_ALLOCS 10000` (advanced_agent.cpp line 95). -/
def MAX_TRACKED_ALLOCS : Nat := 10000

/-- `sizeof(AllocationMeta)` for the packed struct of advanced_agent.cpp
lines 19-26: u32 + u64 + u64 + u64 + u32 + u32 = 36 bytes. -/
def sizeofAllocationMeta : Nat := 36

/-- `EVENT_MALLOC = 1` (advanced_agent.cpp line 30). -/
def EVENT_MALLOC : Nat := 1

/-- `EVENT_FREE = 2` (advanced_agent.cpp line 31). -/
def EVENT_FREE : Nat := 2

/-- `EVENT_LEAK_DETECTED = 3` (advanced_agent.cpp line 32). -/
def EVENT_LEAK_DETECTED : Nat := 3

/-- 64-bit unsigned addition (wrapping), used for the `uint64_t`
statistics counters. -/
def add64 (a b : Nat) : Nat := (a + b) % W64

/-- 64-bit unsigned subtraction (wrapping), used for
`current_memory_usage -= meta->size` and the ring's `current_memory`. -/
def sub64 (a b : Nat) : Nat := (a + W64 - b % W64) % W64

/-- The in-band metadata header `struct AllocationMeta`
(advanced_agent.cpp lines 19-26).  All fields are unsigned machine
integers, held as naturals. -/
structure AllocationMeta where
  magic : Nat
  size : Nat
  alloc_time : Nat
  last_access : Nat
  site_id : Nat
  thread_id : Nat
deriving DecidableEq

/-- The 4-field payload written into `LeakEvent.data`
(advanced_agent.cpp lines 43-57).  `aux` holds `alloc_time` for
MALLOC/FREE events and `staleness_ns` for LEAK_DETECTED events. -/
structure EventPayload where
  address : Nat
  size : Nat
  aux : Nat
  site_id : Nat
deriving DecidableEq

/-- `struct LeakEvent` (advanced_agent.cpp lines 37-60). -/
structure LeakEvent where
  event_id : Nat
  event_type : Nat
  timestamp : Nat
  thread_id : Nat
  data : EventPayload
  is_valid : Nat
deriving DecidableEq

/-- `struct LeakDetectionBuffer` (advanced_agent.cpp lines 63-71): the
shared ring.  `write_index` is a C `int` that the producer only ever
increments; it is held as an unbounded natural. -/
structure LeakDetectionBuffer where
  write_index : Nat
  read_index : Nat
  total_allocations : Nat
  total_frees : Nat
  current_memory : Nat
  leak_count : Nat
  events : Array LeakEvent
deriving DecidableEq

/-- One entry of the live-allocation index `active_allocs`
(advanced_agent.cpp lines 96-99): the user pointer and the header
pointer. -/
structure TrackEntry where
  address : Nat
  meta : Nat
deriving DecidableEq

/-- The agent's global state: the mapped ring (`none` = degraded
statistics-only mode), the event-id counter, the three local atomic
statistics counters, the live-allocation index (its used prefix, in
order), the split heap, and ghost traces of the calls forwarded to the
real allocator. -/
structure AgentState where
  leak_buffer : Option LeakDetectionBuffer
  next_event_id : Nat
  total_allocations : Nat
  total_frees : Nat
  current_memory_usage : Nat
  active_allocs : List TrackEntry
  headers : Nat → Option AllocationMeta
  mem : Nat → Nat
  realFreeCalls : List (Nat × Option Nat)
  realReallocCalls : List (Nat × Nat)

/-- Ghost observation: the magic word stored at address `a` (if a header
lives there). -/
def magicAt (h : Nat → Option AllocationMeta) (a : Nat) : Option Nat :=
  Option.map AllocationMeta.magic (h a)

/-- `track_allocation` (advanced_agent.cpp lines 120-126): if
`active_alloc_count < MAX_TRACKED_ALLOCS`, append the pair at position
`active_alloc_count` and increment the count; otherwise drop silently.
The index is represented by its used prefix, so appending to the prefix
is list append. -/
def track_allocation (l : List TrackEntry) (user_ptr meta : Nat) : List TrackEntry :=
  if l.length < MAX_TRACKED_ALLOCS then l ++ [{ address := user_ptr, meta := meta }] else l

/-- `untrack_allocation` (advanced_agent.cpp lines 129-138): linear scan
for the first entry whose `address` equals `user_ptr`; on a match,
overwrite that slot with the last used slot and decrement the count
(swap-with-last removal); on no match, leave the index unchanged. -/
def untrack_allocation (l : List TrackEntry) (user_ptr : Nat) : List TrackEntry :=
  match l.findIdx? (fun e => e.address == user_ptr) with
  | none => l
  | some i => (l.set i (l.getLastD { address := 0, meta := 0 })).dropLast

/-- `write_leak_event` (advanced_agent.cpp lines 141-160): if the ring is
not mapped, return; otherwise build the event (id = post-incremented
`next_event_id`, a 32-bit counter), store it into
`events[write_index % LEAK_BUFFER_SIZE]` and increment `write_index`.
The timestamp and thread id are passed in by the caller (they model
`get_timestamp_ns()` / `pthread_self()`). -/
def write_leak_event (st : AgentState) (event_type : Nat) (data : EventPayload)
    (now tid : Nat) : AgentState :=
  match st.leak_buffer with
  | none => st
  | some buf =>
    let ev : LeakEvent :=
      { event_id := st.next_event_id, event_type := event_type, timestamp := now,
        thread_id := tid, data := data, is_valid := 1 }
    let slot := buf.write_index % LEAK_BUFFER_SIZE
    { st with
      next_event_id := (st.next_event_id + 1) % U32,
      leak_buffer := some { buf with
        events := buf.events.setD slot ev,
        write_index := buf.write_index + 1 } }

/-- `is_valid_allocation` (advanced_agent.cpp lines 163-165):
`meta && meta->magic == ALLOC_MAGIC`.  The argument is the header read
through the split heap; `none` models a null pointer or an address
holding no header. -/
def is_valid_allocation (m : Option AllocationMeta) : Bool :=
  match m with
  | none => false
  | some meta => meta.magic == ALLOC_MAGIC

/-- `get_meta_from_user_ptr` (advanced_agent.cpp lines 168-171): null in,
null out; otherwise `((AllocationMeta*)user_ptr) - 1`, i.e. the user
pointer minus `sizeof(AllocationMeta)` in wrapping 64-bit pointer
arithmetic. -/
def get_meta_from_user_ptr (user_ptr : Nat) : Option Nat :=
  if user_ptr = 0 then none
  else some ((user_ptr + W64 - sizeofAllocationMeta) % W64)

/-- `get_user_ptr_from_meta` (advanced_agent.cpp lines 174-176):
`meta + 1`, i.e. the header base plus `sizeof(AllocationMeta)` in
wrapping 64-bit pointer arithmetic. -/
def get_user_ptr_from_meta (meta : Nat) : Nat :=
  (meta + sizeofAllocationMeta) % W64

/-- Result of installing a header: the header record written at the
header base, and the user pointer handed back. -/
structure InstallResult where
  meta : AllocationMeta
  user_ptr : Nat

/-- The header-install step of `malloc` (advanced_agent.cpp lines
239-248): write `magic`, `size`, `alloc_time = now`,
`last_access = alloc_time`, `site_id`, `thread_id`, and compute the user
pointer `get_user_ptr_from_meta(meta)`. -/
def install (header_base size now site tid : Nat) : InstallResult :=
  { meta :=
      { magic := ALLOC_MAGIC, size := size, alloc_time := now,
        last_access := now, site_id := site, thread_id := tid },
    user_ptr := get_user_ptr_from_meta header_base }

/-- `memcpy(dst, src, n)` on the byte heap: addresses in
`[dst, dst + n)` take the bytes of `[src, src + n)` read from the
pre-call heap (the regions the code copies between never overlap: the
destination is a freshly returned block). -/
def memcpy (mem : Nat → Nat) (dst src n : Nat) : Nat → Nat :=
  fun a => if dst ≤ a ∧ a < dst + n then mem (src + (a - dst)) else mem a

/-- `memset(dst, v, n)` on the byte heap. -/
def memset (mem : Nat → Nat) (dst v n : Nat) : Nat → Nat :=
  fun a => if dst ≤ a ∧ a < dst + n then v else mem a

/-- Interposed `malloc` (advanced_agent.cpp lines 225-273).  `realAlloc`
is the resolved underlying allocator; `now`, `tid`, `site` model
`get_timestamp_ns()`, `get_thread_id()`, `get_call_site_id()`.  Returns
the user pointer (or `none`) and the updated agent state:
size 0 returns null; the real allocator is asked for
`size + sizeof(AllocationMeta)` bytes (wrapping `size_t` addition) and a
null reply is returned as-is with no other effect; otherwise the header
is installed at the returned base, the allocation is tracked, the local
and ring statistics are bumped and a MALLOC event is published. -/
def malloc (st : AgentState) (size : Nat) (realAlloc : Nat → Option Nat)
    (now tid site : Nat) : Option Nat × AgentState :=
  if size = 0 then (none, st)
  else
    let total_size := (size + sizeofAllocationMeta) % W64
    match realAlloc total_size with
    | none => (none, st)
    | some real_ptr =>
      let inst := install real_ptr size now site tid
      let user_ptr := inst.user_ptr
      let st1 : AgentState :=
        { st with headers := fun a => if a = real_ptr then some inst.meta else st.headers a }
      let st2 : AgentState :=
        { st1 with active_allocs := track_allocation st1.active_allocs user_ptr real_ptr }
      let st3 : AgentState :=
        { st2 with
          total_allocations := add64 st2.total_allocations 1,
          current_memory_usage := add64 st2.current_memory_usage size }
      let st4 : AgentState :=
        match st3.leak_buffer with
        | none => st3
        | some buf =>
          let buf1 :=
            { buf with
              total_allocations := add64 buf.total_allocations 1,
              current_memory := add64 buf.current_memory size }
          write_leak_event { st3 with leak_buffer := some buf1 } EVENT_MALLOC
            { address := user_ptr, size := size, aux := inst.meta.alloc_time,
              site_id := inst.meta.site_id } now tid
      (some user_ptr, st4)

/-- Interposed `free` (advanced_agent.cpp lines 276-319).  Null is a
no-op.  The header is recovered by constant subtraction; if its magic
does not validate, the raw pointer is forwarded unchanged to the real
free (pass-through).  Otherwise statistics are updated, the entry is
untracked, a FREE event is published, the magic is cleared to 0, and the
header base is forwarded to the real free.  Each forwarded call is
recorded as `(address, magic word stored at that address at call
time)`. -/
def free (st : AgentState) (ptr now tid : Nat) : AgentState :=
  if ptr = 0 then st
  else
    match get_meta_from_user_ptr ptr with
    | none => st
    | some metaAddr =>
      match st.headers metaAddr with
      | some m =>
        if is_valid_allocation (some m) then
          let st1 : AgentState :=
            { st with
              total_frees := add64 st.total_frees 1,
              current_memory_usage := sub64 st.current_memory_usage m.size }
          let st2 : AgentState :=
            { st1 with active_allocs := untrack_allocation st1.active_allocs ptr }
          let st3 : AgentState :=
            match st2.leak_buffer with
            | none => st2
            | some buf =>
              let buf1 :=
                { buf with
                  total_frees := add64 buf.total_frees 1,
                  current_memory := sub64 buf.current_memory m.size }
              write_leak_event { st2 with leak_buffer := some buf1 } EVENT_FREE
                { address := ptr, size := m.size, aux := m.alloc_time,
                  site_id := m.site_id } now tid
          let st4 : AgentState :=
            { st3 with headers := fun a => if a = metaAddr then some { m with magic := 0 } else st3.headers a }
          { st4 with realFreeCalls := st4.realFreeCalls ++ [(metaAddr, magicAt st4.headers metaAddr)] }
        else
          { st with realFreeCalls := st.realFreeCalls ++ [(ptr, magicAt st.headers ptr)] }
      | none =>
        { st with realFreeCalls := st.realFreeCalls ++ [(ptr, magicAt st.headers ptr)] }

/-- Interposed `realloc` (advanced_agent.cpp lines 322-354).  Null
pointer behaves as `malloc`; size 0 behaves as `free` and returns null;
a foreign header is passed through to the real realloc (whose reply is
the oracle `realReallocResult`); otherwise a new block is obtained via
the interposed `malloc`, `min(size, old_size)` bytes are copied, the old
block is released via the interposed `free`, and the new user pointer is
returned.  A null reply from `malloc` is returned with no further
effect. -/
def realloc (st : AgentState) (ptr size : Nat) (realAlloc : Nat → Option Nat)
    (realReallocResult : Option Nat) (now tid site : Nat) : Option Nat × AgentState :=
  if ptr = 0 then malloc st size realAlloc now tid site
  else if size = 0 then (none, free st ptr now tid)
  else
    match get_meta_from_user_ptr ptr with
    | none => (none, st)
    | some metaAddr =>
      match st.headers metaAddr with
      | some old_meta =>
        if is_valid_allocation (some old_meta) then
          let old_size := old_meta.size
          let mres := malloc st size realAlloc now tid site
          match mres.1 with
          | none => (none, mres.2)
          | some new_ptr =>
            let copy_size := if size < old_size then size else old_size
            let st2 : AgentState := { mres.2 with mem := memcpy mres.2.mem new_ptr ptr copy_size }
            (some new_ptr, free st2 ptr now tid)
        else
          (realReallocResult, { st with realReallocCalls := st.realReallocCalls ++ [(ptr, size)] })
      | none =>
        (realReallocResult, { st with realReallocCalls := st.realReallocCalls ++ [(ptr, size)] })

/-- Interposed `calloc` (advanced_agent.cpp lines 357-370):
`total_size = nmemb * size` in wrapping `size_t` arithmetic — there is
no overflow check — then delegate to the interposed `malloc` and zero
the returned region. -/
def calloc (st : AgentState) (nmemb size : Nat) (realAlloc : Nat → Option Nat)
    (now tid site : Nat) : Option Nat × AgentState :=
  let total_size := (nmemb * size) % W64
  let mres := malloc st total_size realAlloc now tid site
  match mres.1 with
  | none => (none, mres.2)
  | some ptr => (some ptr, { mres.2 with mem := memset mres.2.mem ptr 0 total_size })

/-- A zeroed event slot, as produced by `leak_buffer->events[i] = {}`
during initialization (advanced_agent.cpp lines 449-452). -/
def emptyLeakEvent : LeakEvent :=
  { event_id := 0, event_type := 0, timestamp := 0, thread_id := 0,
    data := { address := 0, size := 0, aux := 0, site_id := 0 }, is_valid := 0 }

/-- The ring as zero-initialized by `advanced_agent_init`
(advanced_agent.cpp lines 440-452). -/
def initBuffer : LeakDetectionBuffer :=
  { write_index := 0, read_index := 0, total_allocations := 0, total_frees := 0,
    current_memory := 0, leak_count := 0,
    events := Array.mkArray LEAK_BUFFER_SIZE emptyLeakEvent }

/-- The agent's state right after `advanced_agent_init` succeeds:
mapped zeroed ring, `next_event_id = 1` (advanced_agent.cpp line 76),
zero counters, empty index, empty heap. -/
def initState : AgentState :=
  { leak_buffer := some initBuffer, next_event_id := 1, total_allocations := 0,
    total_frees := 0, current_memory_usage := 0, active_allocs := [],
    headers := fun _ => none, mem := fun _ => 0, realFreeCalls := [],
    realReallocCalls := [] }

/-- The agent's state when shared-memory setup failed and it degraded to
statistics-only mode (`leak_buffer == nullptr`). -/
def stNoRing : AgentState := { initState with leak_buffer := none }

/-- A concrete owned allocation header used as a test fixture: magic
valid, 5 user bytes, allocated at time 10 by thread 3 from site 2. -/
def metaFixture : AllocationMeta :=
  { magic := ALLOC_MAGIC, size := 5, alloc_time := 10, last_access := 10,
    site_id := 2, thread_id := 3 }

/-- A concrete agent state (degraded mode) holding exactly one owned
allocation: header `metaFixture` at base 100, user pointer 136. -/
def stOwned : AgentState :=
  { leak_buffer := none, next_event_id := 1, total_allocations := 1,
    total_frees := 0, current_memory_usage := 5,
    active_allocs := [{ address := 136, meta := 100 }],
    headers := fun a => if a = 100 then some metaFixture else none,
    mem := fun a => a % 251, realFreeCalls := [], realReallocCalls := [] }

/-- The scanner's snapshot of the live-allocation index: the loop of
`leak_scanner_thread` (advanced_agent.cpp lines 386-394) visits exactly
the entries of the used prefix `active_allocs[0 .. active_alloc_count)`,
which is the tracked list itself. -/
def scanner_snapshot (l : List TrackEntry) : List TrackEntry := l

/-- Shared-memory operations a publisher performs, in program order:
a store of a full record into a ring slot, a full memory fence
(`__sync_synchronize`), or the increment of `write_index`. -/
inductive ShmOp where
  | storeSlot (slot : Nat)
  | fence
  | advanceIndex
deriving DecidableEq

/-- Program-order trace of the shared-memory operations performed by
`write_leak_event` (advanced_agent.cpp lines 156-159) once past the
null-ring guard: store the event into
`events[write_index % LEAK_BUFFER_SIZE]`, then increment `write_index`.
The function contains no fence instruction. -/
def write_leak_event_shm_trace (write_index : Nat) : List ShmOp :=
  [ShmOp.storeSlot (write_index % LEAK_BUFFER_SIZE), ShmOp.advanceIndex]

/-- Program-order trace of the shared-memory operations performed by
`write_to_shared_memory` (monitor/agent.cpp lines 40-56) once past the
null-buffer guard: store the record into
`allocations[write_index % BUFFER_SIZE]`, execute `__sync_synchronize()`
(a full memory fence), then increment `write_index`. -/
def write_to_shared_memory_shm_trace (write_index : Nat) : List ShmOp :=
  [ShmOp.storeSlot (write_index % BUFFER_SIZE), ShmOp.fence, ShmOp.advanceIndex]

/-- Scans a publisher trace and checks the fence-before-advance
publication contract: every `advanceIndex` must be separated from any
earlier slot store by a full fence.  The flag carries "all stores so far
are covered by a fence". -/
def fencedFrom : Bool → List ShmOp → Bool
  | _, [] => true
  | _, ShmOp.storeSlot _ :: rest => fencedFrom false rest
  | _, ShmOp.fence :: rest => fencedFrom true rest
  | fenced, ShmOp.advanceIndex :: rest => fenced && fencedFrom fenced rest

/-- Fence-before-advance contract of a publisher trace (spec section 4.2). -/
def fenceBeforeAdvance (t : List ShmOp) : Bool := fencedFrom true t

/-- One interposer call, with its oracle inputs: the operation the user
code performs together with the underlying allocator's reply and the
ambient clock / thread / call-site values. -/
inductive AllocOp where
  | mallocOp (size : Nat) (realAlloc : Nat → Option Nat) (now tid site : Nat)
  | freeOp (ptr now tid : Nat)
  | reallocOp (ptr size : Nat) (realAlloc : Nat → Option Nat)
      (realReallocResult : Option Nat) (now tid site : Nat)
  | callocOp (nmemb size : Nat) (realAlloc : Nat → Option Nat) (now tid site : Nat)

/-- Apply one interposer call to the agent state. -/
def applyOp (st : AgentState) : AllocOp → AgentState
  | AllocOp.mallocOp size ra now tid site => (malloc st size ra now tid site).2
  | AllocOp.freeOp ptr now tid => free st ptr now tid
  | AllocOp.reallocOp ptr size ra rr now tid site => (realloc st ptr size ra rr now tid site).2
  | AllocOp.callocOp nmemb size ra now tid site => (calloc st nmemb size ra now tid site).2

/-- Run a sequence of interposer calls from a starting state. -/
def runOps (ops : List AllocOp) (st : AgentState) : AgentState :=
  ops.foldl applyOp st

/-- Well-formedness of one call's oracle: any address the underlying
allocator hands out is a real pointer, i.e. adding the header size to it
does not wrap the address space. -/
def opWF : AllocOp → Prop
  | AllocOp.mallocOp _ ra _ _ _ => ∀ n r, ra n = some r → r + sizeofAllocationMeta < W64
  | AllocOp.freeOp _ _ _ => True
  | AllocOp.reallocOp _ _ ra _ _ _ _ => ∀ n r, ra n = some r → r + sizeofAllocationMeta < W64
  | AllocOp.callocOp _ _ ra _ _ _ => ∀ n r, ra n = some r → r + sizeofAllocationMeta < W64

/-- Internal consistency of the live-allocation index: every entry's
user pointer sits exactly `sizeof(AllocationMeta)` bytes past its header
pointer, and the used prefix never exceeds the capacity. -/
def indexWF (l : List TrackEntry) : Prop :=
  (∀ e ∈ l, e.address = e.meta + sizeofAllocationMeta) ∧ l.length ≤ MAX_TRACKED_ALLOCS

/-! Helper lemmas about the state transformers. -/

lemma write_leak_event_proj (st : AgentState) (t : Nat) (d : EventPayload) (now tid : Nat) :
    (write_leak_event st t d now tid).active_allocs = st.active_allocs ∧
    (write_leak_event st t d now tid).headers = st.headers ∧
    (write_leak_event st t d now tid).mem = st.mem ∧
    (write_leak_event st t d now tid).realFreeCalls = st.realFreeCalls ∧
    (write_leak_event st t d now tid).realReallocCalls = st.realReallocCalls ∧
    (write_leak_event st t d now tid).total_allocations = st.total_allocations ∧
    (write_leak_event st t d now tid).total_frees = st.total_frees ∧
    (write_leak_event st t d now tid).current_memory_usage = st.current_memory_usage := by
  cases hb : st.leak_buffer <;> simp [write_leak_event, hb]

lemma malloc_zero (st : AgentState) (ra : Nat → Option Nat) (now tid site : Nat) :
    malloc st 0 ra now tid site = (none, st) := by
  simp [malloc]

lemma malloc_fail (st : AgentState) (size : Nat) (ra : Nat → Option Nat) (now tid site : Nat)
    (hsz : size ≠ 0) (hra : ra ((size + sizeofAllocationMeta) % W64) = none) :
    malloc st size ra now tid site = (none, st) := by
  simp [malloc, hsz, hra]

lemma malloc_succ (st : AgentState) (size : Nat) (ra : Nat → Option Nat) (now tid site r : Nat)
    (hsz : size ≠ 0) (hra : ra ((size + sizeofAllocationMeta) % W64) = some r) :
    (malloc st size ra now tid site).1 = some (get_user_ptr_from_meta r) ∧
    (malloc st size ra now tid site).2.mem = st.mem ∧
    (malloc st size ra now tid site).2.realFreeCalls = st.realFreeCalls ∧
    (malloc st size ra now tid site).2.realReallocCalls = st.realReallocCalls ∧
    (malloc st size ra now tid site).2.active_allocs =
      track_allocation st.active_allocs (get_user_ptr_from_meta r) r ∧
    (∀ a, a ≠ r → (malloc st size ra now tid site).2.headers a = st.headers a) ∧
    (malloc st size ra now tid site).2.headers r = some (install r size now site tid).meta := by
  cases hb : st.leak_buffer <;>
    simp [malloc, hsz, hra, hb, write_leak_event, install, get_user_ptr_from_meta] <;>
    exact fun a ha => by simp [ha]

lemma free_foreign (st : AgentState) (ptr now tid : Nat) (hp : ptr ≠ 0)
    (hv : is_valid_allocation (st.headers ((ptr + W64 - sizeofAllocationMeta) % W64)) = false) :
    free st ptr now tid =
      { st with realFreeCalls := st.realFreeCalls ++ [(ptr, magicAt st.headers ptr)] } := by
  cases hm : st.headers ((ptr + W64 - sizeofAllocationMeta) % W64) with
  | none => simp [free, hp, get_meta_from_user_ptr, hm]
  | some m =>
    rw [hm] at hv
    simp [free, hp, get_meta_from_user_ptr, hm, hv]

lemma free_owned (st : AgentState) (ptr now tid : Nat) (m : AllocationMeta)
    (hp : ptr ≠ 0)
    (hm : st.headers ((ptr + W64 - sizeofAllocationMeta) % W64) = some m)
    (hmagic : m.magic = ALLOC_MAGIC) :
    (free st ptr now tid).headers ((ptr + W64 - sizeofAllocationMeta) % W64) =
      some { m with magic := 0 } ∧
    (∀ a, a ≠ (ptr + W64 - sizeofAllocationMeta) % W64 →
      (free st ptr now tid).headers a = st.headers a) ∧
    (free st ptr now tid).realFreeCalls =
      st.realFreeCalls ++ [((ptr + W64 - sizeofAllocationMeta) % W64, some 0)] ∧
    (free st ptr now tid).mem = st.mem ∧
    (free st ptr now tid).realReallocCalls = st.realReallocCalls ∧
    (free st ptr now tid).active_allocs = untrack_allocation st.active_allocs ptr := by
  have hv : is_valid_allocation (some m) = true := by simp [is_valid_allocation, hmagic]
  cases hb : st.leak_buffer <;>
    simp [free, hp, get_meta_from_user_ptr, hm, hv, hb, write_leak_event, magicAt] <;>
    exact fun a ha => by simp [ha]

/-! Claim theorems. -/

/-- C1: the claim states that every event publication stores the record,
issues a full memory fence, and only then increments `write_index`.  The
monitor agent's `write_to_shared_memory` follows this store-fence-advance
protocol, but the advanced agent's `write_leak_event` stores the slot and
increments `write_index` with no fence in between, so the claimed contract
is violated by the code. -/
theorem write_leak_event_fence_missing :
    fenceBeforeAdvance (write_to_shared_memory_shm_trace 0) = true ∧
    fenceBeforeAdvance (write_leak_event_shm_trace 0) = false := by
  decide

/-- C2: the claim states that `calloc(count, size)` fails (returns null)
when `count * size` overflows the machine word.  The code computes the
product in wrapping `size_t` arithmetic with no overflow check: at
`count = 2^32 + 1`, `size = 2^32` the product `2^64 + 2^32` wraps to
`2^32`, and with a succeeding underlying allocator `calloc` returns a
non-null user pointer whose header records the truncated size `2^32`
instead of failing. -/
theorem calloc_product_overflow_truncates :
    W64 < (2 ^ 32 + 1) * 2 ^ 32 ∧
    ((2 ^ 32 + 1) * 2 ^ 32) % W64 = 2 ^ 32 ∧
    (calloc stNoRing (2 ^ 32 + 1) (2 ^ 32) (fun _ => some 1000) 7 1 2).1 = some 1036 ∧
    Option.map AllocationMeta.size
      ((calloc stNoRing (2 ^ 32 + 1) (2 ^ 32) (fun _ => some 1000) 7 1 2).2.headers 1000) =
      some (2 ^ 32) := by
  refine ⟨by decide, by decide, by decide, by decide⟩

/-- C3: for every `size > 0`, if the underlying allocator returns null
for the enlarged request `size + sizeof(AllocationMeta)`, then `malloc`
returns null, publishes no event, registers nothing in the
live-allocation index, and leaves all statistics counters (local atomics
and ring counters alike) unchanged — the state is returned untouched. -/
theorem malloc_real_alloc_failure_no_effect (st : AgentState) (size : Nat)
    (ra : Nat → Option Nat) (now tid site : Nat)
    (hsize : 0 < size)
    (hfail : ra ((size + sizeofAllocationMeta) % W64) = none) :
    malloc st size ra now tid site = (none, st) ∧
    (malloc st size ra now tid site).2.active_allocs = st.active_allocs ∧
    (malloc st size ra now tid site).2.total_allocations = st.total_allocations ∧
    (malloc st size ra now tid site).2.current_memory_usage = st.current_memory_usage ∧
    (malloc st size ra now tid site).2.leak_buffer = st.leak_buffer ∧
    (malloc st size ra now tid site).2.next_event_id = st.next_event_id := by
  have hsz : size ≠ 0 := by omega
  have h := malloc_fail st size ra now tid site hsz hfail
  refine ⟨h, ?_, ?_, ?_, ?_, ?_⟩ <;> rw [h]

theorem malloc_real_alloc_failure_no_effect_witness :
    0 < 5 ∧
    (fun _ : Nat => (none : Option Nat)) ((5 + sizeofAllocationMeta) % W64) = none ∧
    malloc initState 5 (fun _ => none) 0 0 0 = (none, initState) :=
  ⟨by decide, rfl,
   (malloc_real_alloc_failure_no_effect initState 5 (fun _ => none) 0 0 0 (by decide) rfl).1⟩

/-- C4: a non-null pointer whose preceding header does not validate
(magic mismatch — foreign, trampled, or already invalidated) is
forwarded unchanged to the real free: no event is published, no
statistics counter changes, and the live-allocation index and heap are
left untouched; the only effect is the recorded pass-through call of
`ptr` itself. -/
theorem free_foreign_pointer_pass_through (st : AgentState) (ptr now tid : Nat)
    (hp : ptr ≠ 0)
    (hv : is_valid_allocation (st.headers ((ptr + W64 - sizeofAllocationMeta) % W64)) = false) :
    free st ptr now tid =
      { st with realFreeCalls := st.realFreeCalls ++ [(ptr, magicAt st.headers ptr)] } ∧
    (free st ptr now tid).leak_buffer = st.leak_buffer ∧
    (free st ptr now tid).next_event_id = st.next_event_id ∧
    (free st ptr now tid).total_allocations = st.total_allocations ∧
    (free st ptr now tid).total_frees = st.total_frees ∧
    (free st ptr now tid).current_memory_usage = st.current_memory_usage ∧
    (free st ptr now tid).active_allocs = st.active_allocs ∧
    (free st ptr now tid).headers = st.headers := by
  have h := free_foreign st ptr now tid hp hv
  refine ⟨h, ?_, ?_, ?_, ?_, ?_, ?_, ?_⟩ <;> rw [h]

theorem free_foreign_pointer_pass_through_witness :
    (500 : Nat) ≠ 0 ∧
    is_valid_allocation (stNoRing.headers ((500 + W64 - sizeofAllocationMeta) % W64)) = false ∧
    free stNoRing 500 3 4 =
      { stNoRing with realFreeCalls := stNoRing.realFreeCalls ++ [(500, magicAt stNoRing.headers 500)] } :=
  ⟨by decide, rfl,
   (free_foreign_pointer_pass_through stNoRing 500 3 4 (by decide) rfl).1⟩

/-- C5: for every header base `h` (with the user pointer not wrapping
the address space), `install` returns the user pointer
`h + sizeof(AllocationMeta)`, and `get_meta_from_user_ptr` applied to
that user pointer recovers `h` exactly: the user-pointer/header
conversion is an exact constant-offset round trip. -/
theorem install_header_of_roundtrip (h s now site tid : Nat)
    (hh : h + sizeofAllocationMeta < W64) :
    (install h s now site tid).user_ptr = h + sizeofAllocationMeta ∧
    get_meta_from_user_ptr ((install h s now site tid).user_ptr) = some h := by
  have h1 : (h + sizeofAllocationMeta) % W64 = h + sizeofAllocationMeta := Nat.mod_eq_of_lt hh
  have h2 : h + sizeofAllocationMeta ≠ 0 := by
    simp only [sizeofAllocationMeta]
    omega
  have hup : (install h s now site tid).user_ptr = h + sizeofAllocationMeta := by
    simp [install, get_user_ptr_from_meta, h1]
  constructor
  · exact hup
  · rw [hup]
    unfold get_meta_from_user_ptr
    rw [if_neg h2]
    simp only [Option.some.injEq]
    simp only [sizeofAllocationMeta, W64] at hh ⊢
    omega

theorem install_header_of_roundtrip_witness :
    100 + sizeofAllocationMeta < W64 ∧
    (install 100 5 10 2 3).user_ptr = 100 + sizeofAllocationMeta ∧
    get_meta_from_user_ptr ((install 100 5 10 2 3).user_ptr) = some 100 :=
  ⟨by decide,
   (install_header_of_roundtrip 100 5 10 2 3 (by decide)).1,
   (install_header_of_roundtrip 100 5 10 2 3 (by decide)).2⟩

/-- C6: `track_allocation` appends the pair to the used prefix and
increments the prefix length exactly when the length is strictly below
`MAX_TRACKED_ALLOCS = 10000`; otherwise it leaves the index completely
unchanged (silent drop), and every entry already present remains visible
to the scanner's snapshot. -/
theorem track_allocation_capacity_spec (l : List TrackEntry) (u h : Nat) :
    (l.length < MAX_TRACKED_ALLOCS →
      track_allocation l u h = l ++ [{ address := u, meta := h }] ∧
      (track_allocation l u h).length = l.length + 1) ∧
    (MAX_TRACKED_ALLOCS ≤ l.length →
      track_allocation l u h = l ∧
      ∀ e ∈ scanner_snapshot l, e ∈ scanner_snapshot (track_allocation l u h)) := by
  constructor
  · intro hlt
    simp [track_allocation, hlt]
  · intro hge
    have hnot : ¬ l.length < MAX_TRACKED_ALLOCS := by omega
    simp [track_allocation, hnot, scanner_snapshot]

theorem track_allocation_capacity_spec_witness :
    ([] : List TrackEntry).length < MAX_TRACKED_ALLOCS ∧
    track_allocation [] 1 2 = [{ address := 1, meta := 2 }] ∧
    MAX_TRACKED_ALLOCS ≤
      (List.replicate MAX_TRACKED_ALLOCS ({ address := 0, meta := 0 } : TrackEntry)).length ∧
    track_allocation (List.replicate MAX_TRACKED_ALLOCS { address := 0, meta := 0 }) 1 2 =
      List.replicate MAX_TRACKED_ALLOCS { address := 0, meta := 0 } :=
  ⟨by decide,
   ((track_allocation_capacity_spec [] 1 2).1 (by decide)).1,
   by simp,
   ((track_allocation_capacity_spec _ 1 2).2 (by simp)).1⟩

/-- C8: when `free` services an owned pointer `ptr`, what it forwards to
the real deallocator is the header base `ptr - sizeof(AllocationMeta)`
(not `ptr` itself), and at the moment of that call the header's magic
word is already 0; afterwards the header no longer validates, so a
second `free` of the same pointer takes the pass-through path. -/
theorem free_owned_invalidate_forward_base (st : AgentState) (ptr now tid now2 tid2 : Nat)
    (m : AllocationMeta)
    (hp : ptr ≠ 0) (hpW : ptr < W64)
    (hm : st.headers ((ptr + W64 - sizeofAllocationMeta) % W64) = some m)
    (hmagic : m.magic = ALLOC_MAGIC) :
    (ptr + W64 - sizeofAllocationMeta) % W64 ≠ ptr ∧
    (free st ptr now tid).realFreeCalls =
      st.realFreeCalls ++ [((ptr + W64 - sizeofAllocationMeta) % W64, some 0)] ∧
    (free st ptr now tid).headers ((ptr + W64 - sizeofAllocationMeta) % W64) =
      some { m with magic := 0 } ∧
    is_valid_allocation
      ((free st ptr now tid).headers ((ptr + W64 - sizeofAllocationMeta) % W64)) = false ∧
    free (free st ptr now tid) ptr now2 tid2 =
      { free st ptr now tid with realFreeCalls :=
          (free st ptr now tid).realFreeCalls ++
            [(ptr, magicAt (free st ptr now tid).headers ptr)] } := by
  obtain ⟨h1, _, h3, _, _, _⟩ := free_owned st ptr now tid m hp hm hmagic
  have hv2 : is_valid_allocation
      ((free st ptr now tid).headers ((ptr + W64 - sizeofAllocationMeta) % W64)) = false := by
    rw [h1]
    rfl
  refine ⟨?_, h3, h1, hv2, free_foreign (free st ptr now tid) ptr now2 tid2 hp hv2⟩
  simp only [sizeofAllocationMeta, W64] at hpW ⊢
  omega

theorem free_owned_invalidate_forward_base_witness :
    (136 : Nat) ≠ 0 ∧ (136 : Nat) < W64 ∧
    stOwned.headers ((136 + W64 - sizeofAllocationMeta) % W64) = some metaFixture ∧
    metaFixture.magic = ALLOC_MAGIC ∧
    (free stOwned 136 20 21).realFreeCalls =
      stOwned.realFreeCalls ++ [((136 + W64 - sizeofAllocationMeta) % W64, some 0)] :=
  ⟨by decide, by decide, rfl, rfl,
   (free_owned_invalidate_forward_base stOwned 136 20 21 22 23 metaFixture
     (by decide) (by decide) rfl rfl).2.1⟩

/-- C9: `calloc` with `count = 0` or `size = 0` returns null with the
state completely unchanged, because the zero product is delegated to
`malloc`, which returns null for a zero-size request before touching any
counter or publishing any event. -/
theorem calloc_zero_returns_null (st : AgentState) (nmemb size : Nat)
    (ra : Nat → Option Nat) (now tid site : Nat)
    (hz : nmemb = 0 ∨ size = 0) :
    calloc st nmemb size ra now tid site = (none, st) := by
  have ht : (nmemb * size) % W64 = 0 := by
    rcases hz with rfl | rfl <;> simp
  simp [calloc, ht, malloc]

theorem calloc_zero_returns_null_witness :
    ((0 : Nat) = 0 ∨ (7 : Nat) = 0) ∧
    calloc initState 0 7 (fun _ => some 1000) 1 2 3 = (none, initState) :=
  ⟨Or.inl rfl,
   calloc_zero_returns_null initState 0 7 (fun _ => some 1000) 1 2 3 (Or.inl rfl)⟩

/-! Preservation of the index invariant, for the reachability claim. -/

lemma getLastD_mem {α : Type} : ∀ (l : List α) (d : α), l ≠ [] → l.getLastD d ∈ l
  | [], _, h => absurd rfl h
  | [a], d, _ => by simp [List.getLastD_cons]
  | a :: b :: t, d, _ => by
      have hmem := getLastD_mem (b :: t) a (by simp)
      simp only [List.getLastD_cons] at hmem ⊢
      exact List.mem_cons_of_mem a hmem

lemma untrack_mem (l : List TrackEntry) (p : Nat) :
    ∀ e ∈ untrack_allocation l p, e ∈ l := by
  unfold untrack_allocation
  cases hf : l.findIdx? (fun e => e.address == p) with
  | none => exact fun e he => he
  | some i =>
    intro e he
    have h1 : e ∈ l.set i (l.getLastD { address := 0, meta := 0 }) :=
      List.dropLast_subset _ he
    rcases List.mem_or_eq_of_mem_set h1 with h2 | h2
    · exact h2
    · have hne : l ≠ [] := by
        rintro rfl
        rw [List.findIdx?_nil] at hf
        exact Option.noConfusion hf
      exact h2 ▸ getLastD_mem l _ hne

lemma untrack_length (l : List TrackEntry) (p : Nat) :
    (untrack_allocation l p).length ≤ l.length := by
  unfold untrack_allocation
  cases hf : l.findIdx? (fun e => e.address == p) with
  | none => exact Nat.le_refl _
  | some i =>
    simp only [List.length_dropLast, List.length_set]
    omega

lemma untrack_indexWF (l : List TrackEntry) (p : Nat) (hwf : indexWF l) :
    indexWF (untrack_allocation l p) :=
  ⟨fun e he => hwf.1 e (untrack_mem l p e he),
   Nat.le_trans (untrack_length l p) hwf.2⟩

lemma track_indexWF (l : List TrackEntry) (u h : Nat) (hwf : indexWF l)
    (hu : u = h + sizeofAllocationMeta) : indexWF (track_allocation l u h) := by
  unfold track_allocation
  by_cases hlen : l.length < MAX_TRACKED_ALLOCS
  · rw [if_pos hlen]
    constructor
    · intro e he
      rcases List.mem_append.mp he with h1 | h1
      · exact hwf.1 e h1
      · simp only [List.mem_singleton] at h1
        subst h1
        exact hu
    · simp only [List.length_append, List.length_singleton]
      omega
  · rw [if_neg hlen]
    exact hwf

lemma malloc_indexWF (st : AgentState) (size : Nat) (ra : Nat → Option Nat)
    (now tid site : Nat)
    (hra : ∀ n r, ra n = some r → r + sizeofAllocationMeta < W64)
    (hwf : indexWF st.active_allocs) :
    indexWF (malloc st size ra now tid site).2.active_allocs := by
  by_cases hsz : size = 0
  · subst hsz
    rw [malloc_zero]
    exact hwf
  · cases hr : ra ((size + sizeofAllocationMeta) % W64) with
    | none =>
      rw [malloc_fail st size ra now tid site hsz hr]
      exact hwf
    | some r =>
      obtain ⟨_, _, _, _, mact, _, _⟩ := malloc_succ st size ra now tid site r hsz hr
      rw [mact]
      refine track_indexWF _ _ _ hwf ?_
      unfold get_user_ptr_from_meta
      exact Nat.mod_eq_of_lt (hra _ _ hr)

lemma free_active_cases (st : AgentState) (ptr now tid : Nat) :
    (free st ptr now tid).active_allocs = st.active_allocs ∨
    (free st ptr now tid).active_allocs = untrack_allocation st.active_allocs ptr := by
  by_cases hp : ptr = 0
  · left
    subst hp
    simp [free]
  · cases hm : st.headers ((ptr + W64 - sizeofAllocationMeta) % W64) with
    | none =>
      left
      rw [free_foreign st ptr now tid hp (by simp [is_valid_allocation, hm])]
    | some m =>
      by_cases hmg : m.magic = ALLOC_MAGIC
      · right
        exact (free_owned st ptr now tid m hp hm hmg).2.2.2.2.2
      · left
        have hv : is_valid_allocation
            (st.headers ((ptr + W64 - sizeofAllocationMeta) % W64)) = false := by
          simp [is_valid_allocation, hm, hmg]
        rw [free_foreign st ptr now tid hp hv]

lemma free_indexWF (st : AgentState) (ptr now tid : Nat)
    (hwf : indexWF st.active_allocs) : indexWF (free st ptr now tid).active_allocs := by
  rcases free_active_cases st ptr now tid with h | h
  · rw [h]; exact hwf
  · rw [h]; exact untrack_indexWF _ _ hwf

lemma calloc_indexWF (st : AgentState) (nmemb size : Nat) (ra : Nat → Option Nat)
    (now tid site : Nat)
    (hra : ∀ n r, ra n = some r → r + sizeofAllocationMeta < W64)
    (hwf : indexWF st.active_allocs) :
    indexWF (calloc st nmemb size ra now tid site).2.active_allocs := by
  unfold calloc
  dsimp only
  split
  · exact malloc_indexWF st _ ra now tid site hra hwf
  · exact malloc_indexWF st _ ra now tid site hra hwf

lemma realloc_indexWF (st : AgentState) (ptr size : Nat) (ra : Nat → Option Nat)
    (rr : Option Nat) (now tid site : Nat)
    (hra : ∀ n r, ra n = some r → r + sizeofAllocationMeta < W64)
    (hwf : indexWF st.active_allocs) :
    indexWF (realloc st ptr size ra rr now tid site).2.active_allocs := by
  by_cases hp : ptr = 0
  · unfold realloc
    rw [if_pos hp]
    exact malloc_indexWF st size ra now tid site hra hwf
  · by_cases hsz : size = 0
    · unfold realloc
      rw [if_neg hp, if_pos hsz]
      dsimp only
      exact free_indexWF st ptr now tid hwf
    · have hgm : get_meta_from_user_ptr ptr =
          some ((ptr + W64 - sizeofAllocationMeta) % W64) := by
        simp [get_meta_from_user_ptr, hp]
      unfold realloc
      rw [if_neg hp, if_neg hsz, hgm]
      dsimp only
      split
      · split
        · split
          · exact malloc_indexWF st size ra now tid site hra hwf
          · exact free_indexWF _ ptr now tid (malloc_indexWF st size ra now tid site hra hwf)
        · exact hwf
      · exact hwf

lemma applyOp_indexWF (st : AgentState) (op : AllocOp) (hop : opWF op)
    (hwf : indexWF st.active_allocs) : indexWF (applyOp st op).active_allocs := by
  cases op with
  | mallocOp size ra now tid site => exact malloc_indexWF st size ra now tid site hop hwf
  | freeOp ptr now tid => exact free_indexWF st ptr now tid hwf
  | reallocOp ptr size ra rr now tid site =>
    exact realloc_indexWF st ptr size ra rr now tid site hop hwf
  | callocOp nmemb size ra now tid site =>
    exact calloc_indexWF st nmemb size ra now tid site hop hwf

lemma runOps_indexWF : ∀ (ops : List AllocOp) (st : AgentState),
    (∀ op ∈ ops, opWF op) → indexWF st.active_allocs →
    indexWF (runOps ops st).active_allocs
  | [], _, _, hwf => hwf
  | op :: rest, st, hops, hwf =>
    runOps_indexWF rest (applyOp st op)
      (fun o ho => hops o (List.mem_cons_of_mem op ho))
      (applyOp_indexWF st op (hops op (List.mem_cons_self op rest)) hwf)

/-- C10: in every state reachable from the freshly initialized agent by a
sequence of interposer calls (with a well-formed underlying allocator,
i.e. one returning real, non-wrapping addresses), every entry of the
live-allocation index's used prefix stores a user pointer equal to its
header pointer plus `sizeof(AllocationMeta)`, and the prefix length stays
within `0 ≤ length ≤ MAX_TRACKED_ALLOCS`; append and swap-with-last
removal both preserve this. -/
theorem index_consistency_invariant (ops : List AllocOp)
    (hwf : ∀ op ∈ ops, opWF op) :
    indexWF (runOps ops initState).active_allocs := by
  refine runOps_indexWF ops initState hwf ?_
  constructor
  · intro e he
    simp [initState] at he
  · simp [initState, MAX_TRACKED_ALLOCS]

theorem index_consistency_invariant_witness :
    (∀ op ∈ ([AllocOp.mallocOp 5 (fun _ => some 1000) 1 2 3,
              AllocOp.freeOp 1036 4 2] : List AllocOp), opWF op) ∧
    indexWF (runOps [AllocOp.mallocOp 5 (fun _ => some 1000) 1 2 3,
                     AllocOp.freeOp 1036 4 2] initState).active_allocs := by
  have hops : ∀ op ∈ ([AllocOp.mallocOp 5 (fun _ => some 1000) 1 2 3,
      AllocOp.freeOp 1036 4 2] : List AllocOp), opWF op := by
    intro op hop
    rcases List.mem_cons.mp hop with rfl | hop
    · intro n r hr
      have h1 : (1000 : Nat) = r := Option.some.inj hr
      subst h1
      decide
    · rcases List.mem_cons.mp hop with rfl | hop
      · trivial
      · exact absurd hop (List.not_mem_nil op)
  exact ⟨hops, index_consistency_invariant _ hops⟩

/-- C7: for every owned pointer `p` (header magic valid) and
`new_size > 0`, `realloc` obtains a fresh block via the interposed
`malloc`, copies exactly `min(old_size, new_size)` bytes from `p` into
the new block (and touches no other byte), frees `p` via the interposed
`free` — so `p`'s header magic becomes 0 and the header base is what is
handed to the real free — and returns the new user pointer; if the fresh
allocation fails it returns null with the state unchanged. -/
theorem realloc_owned_copy_free_spec (st : AgentState) (p size : Nat)
    (ra : Nat → Option Nat) (rr : Option Nat) (now tid site : Nat) (m : AllocationMeta)
    (hp : p ≠ 0)
    (hm : st.headers ((p + W64 - sizeofAllocationMeta) % W64) = some m)
    (hmagic : m.magic = ALLOC_MAGIC)
    (hsize : 0 < size) :
    (ra ((size + sizeofAllocationMeta) % W64) = none →
      realloc st p size ra rr now tid site = (none, st)) ∧
    (∀ r, ra ((size + sizeofAllocationMeta) % W64) = some r →
      r + sizeofAllocationMeta < W64 →
      r ≠ (p + W64 - sizeofAllocationMeta) % W64 →
      r + sizeofAllocationMeta ≠ p →
      (realloc st p size ra rr now tid site).1 = some (r + sizeofAllocationMeta) ∧
      (∀ i, i < min size m.size →
        (realloc st p size ra rr now tid site).2.mem (r + sizeofAllocationMeta + i) =
          st.mem (p + i)) ∧
      (∀ a, ¬ (r + sizeofAllocationMeta ≤ a ∧
               a < r + sizeofAllocationMeta + min size m.size) →
        (realloc st p size ra rr now tid site).2.mem a = st.mem a) ∧
      (realloc st p size ra rr now tid site).2.headers
        ((p + W64 - sizeofAllocationMeta) % W64) = some { m with magic := 0 } ∧
      (realloc st p size ra rr now tid site).2.realFreeCalls =
        st.realFreeCalls ++ [((p + W64 - sizeofAllocationMeta) % W64, some 0)]) := by
  have hsz : size ≠ 0 := by omega
  have hv : is_valid_allocation (some m) = true := by simp [is_valid_allocation, hmagic]
  constructor
  · intro hnone
    have hmf := malloc_fail st size ra now tid site hsz hnone
    simp [realloc, hp, hsz, get_meta_from_user_ptr, hm, hv, hmf]
  · intro r hr hrW hrne hrp
    obtain ⟨m1, mmem, mrfc, mrrc, mact, mhdrs, mhdrr⟩ :=
      malloc_succ st size ra now tid site r hsz hr
    have huser : get_user_ptr_from_meta r = r + sizeofAllocationMeta := by
      unfold get_user_ptr_from_meta
      exact Nat.mod_eq_of_lt hrW
    have hcopy : (if size < m.size then size else m.size) = min size m.size := by
      split <;> omega
    have hre : realloc st p size ra rr now tid site =
        (some (get_user_ptr_from_meta r),
         free { (malloc st size ra now tid site).2 with
                mem := memcpy (malloc st size ra now tid site).2.mem
                  (get_user_ptr_from_meta r) p (if size < m.size then size else m.size) }
           p now tid) := by
      simp [realloc, hp, hsz, get_meta_from_user_ptr, hm, hv, m1]
    have hMhdr : (malloc st size ra now tid site).2.headers
        ((p + W64 - sizeofAllocationMeta) % W64) = some m := by
      rw [mhdrs _ (Ne.symm hrne)]
      exact hm
    obtain ⟨f1, f2, f3, fmem, frrc, fact⟩ :=
      free_owned
        { (malloc st size ra now tid site).2 with
          mem := memcpy (malloc st size ra now tid site).2.mem
            (get_user_ptr_from_meta r) p (if size < m.size then size else m.size) }
        p now tid m hp hMhdr hmagic
    have hmemres : (realloc st p size ra rr now tid site).2.mem =
        memcpy st.mem (r + sizeofAllocationMeta) p (min size m.size) := by
      rw [hre]
      dsimp only
      rw [fmem]
      dsimp only
      rw [mmem, huser, hcopy]
    refine ⟨?_, ?_, ?_, ?_, ?_⟩
    · rw [hre]
      dsimp only
      rw [huser]
    · intro i hi
      rw [hmemres]
      simp only [memcpy]
      rw [if_pos (by omega : r + sizeofAllocationMeta ≤ r + sizeofAllocationMeta + i ∧
        r + sizeofAllocationMeta + i < r + sizeofAllocationMeta + min size m.size)]
      congr 1
      omega
    · intro a ha
      rw [hmemres]
      simp only [memcpy]
      rw [if_neg ha]
    · rw [hre]
      dsimp only
      exact f1
    · rw [hre]
      dsimp only
      rw [f3]
      dsimp only
      rw [mrfc]

theorem realloc_owned_copy_free_spec_witness :
    (136 : Nat) ≠ 0 ∧
    stOwned.headers ((136 + W64 - sizeofAllocationMeta) % W64) = some metaFixture ∧
    metaFixture.magic = ALLOC_MAGIC ∧
    0 < 3 ∧
    (fun _ : Nat => some 1000) ((3 + sizeofAllocationMeta) % W64) = some 1000 ∧
    (realloc stOwned 136 3 (fun _ => some 1000) none 50 2 9).1 =
      some (1000 + sizeofAllocationMeta) :=
  ⟨by decide, rfl, rfl, by decide, rfl,
   ((realloc_owned_copy_free_spec stOwned 136 3 (fun _ => some 1000) none 50 2 9 metaFixture
       (by decide) rfl rfl (by decide)).2 1000 rfl (by decide) (by decide) (by decide)).1⟩

end LeakAgent
